import Mathlib

/-
Verification development for the funcstory call-graph tracer.

The embedding models the FunctionTracer and TraceFormatter classes of
src/index.ts.  JavaScript strings are modelled as Lean `String`s, with the
JS string operations (startsWith, endsWith, includes, split, padStart,
slice(0,-1)) defined over the underlying character list to mirror the JS
semantics.  The ts-morph syntax-tree collaborator is modelled as explicit
data: a project is a list of source files, each carrying its declared
functions, variable declarations, classes and its list of module
references (the "Look in imports" clauses of findFunctionDefinition and
findMethodDefinition); a function definition carries the results the
tracer reads off its ts-morph node: file path, start line, the
@funcstory-skip flag (shouldSkipFunction), JSDoc description and remarks
(getJSDocInfo), and the ordered call expressions of its body
(getCallExpressions).

The source's import-following recursion is not structurally bounded, so
findFunctionDefinition and findMethodDefinition take a fuel argument;
`Option.none` in the outermost layer marks exhausted fuel (a diverging run
of the original).  The traversal engine recurses on an explicit gas
argument for the same reason; gas never runs out when it exceeds the
remaining depth budget, and all theorems about produced trees are stated
for any run that returned a result.
-/

-- ===== JS string primitives, modelled over the character list =====

/-- JS `s.startsWith(p)`. -/
def jsStartsWith (p s : String) : Bool := p.data.isPrefixOf s.data

/-- JS `s.endsWith(p)`. -/
def jsEndsWith (s p : String) : Bool := p.data.isSuffixOf s.data

/-- JS `s.includes(c)` for a single character. -/
def jsIncludesChar (s : String) (c : Char) : Bool := s.data.contains c

/-- JS `s.slice(0, -1)`: drop the last character. -/
def jsDropLast (s : String) : String := String.mk s.data.dropLast

/-- JS `s.padStart(w, c)` for a one-character pad string. -/
def jsPadStart (s : String) (w : Nat) (c : Char) : String :=
  String.mk (List.replicate (w - s.data.length) c ++ s.data)

/-- Helper for JS `s.split(c)`. -/
def splitCharAux (c : Char) : List Char → List Char → List (List Char)
  | [], acc => [acc.reverse]
  | x :: xs, acc =>
    if x == c then acc.reverse :: splitCharAux c xs []
    else splitCharAux c xs (x :: acc)

/-- JS `s.split(c)` for a one-character separator. -/
def jsSplitChar (c : Char) (s : String) : List String :=
  (splitCharAux c s.data []).map String.mk

/-- `newPath.join(' → ')`. -/
def joinArrow (l : List String) : String := String.intercalate " → " l

/-- Substring test on character lists (structural, used to inspect reports). -/
def listContainsSub (pat : List Char) : List Char → Bool
  | [] => pat.isEmpty
  | c :: rest => pat.isPrefixOf (c :: rest) || listContainsSub pat rest

/-- JS `s.includes(pat)` for a string pattern. -/
def strContains (s pat : String) : Bool := listContainsSub pat.data s.data

-- ===== Data model of the ts-morph collaborator =====

/-- The expression of a call: `foo()`, `obj.m()` / `this.m()`, or a form
`resolveCall` does not handle (it returns null there). -/
inductive CallExpr where
  | ident (name : String)
  | prop (objName propName : String)
  | other
deriving DecidableEq, Repr

/-- One call expression found in a definition's body, with the name of the
nearest enclosing class declaration (the walk performed by
`findMethodInCurrentClass`), if any. -/
structure CallSite where
  expr : CallExpr
  enclosingClass : Option String := none
deriving DecidableEq, Repr

/-- A function or method definition node, carrying what the tracer reads
from it: file path and start line (getFunctionLocation), the
`@funcstory-skip` flag (the result of shouldSkipFunction), JSDoc
description and remarks (getJSDocInfo; empty JS strings are `none`,
matching `description || undefined`), and its body's call expressions in
document order (getCallExpressions). -/
structure FnDef where
  filePath : String
  line : Nat
  skip : Bool := false
  body : List CallSite := []
  descr : Option String := none
  remarks : Option String := none
deriving DecidableEq, Repr

/-- A class declaration with its methods (ts-morph `getMethod`). -/
structure ClassDef where
  filePath : String
  methods : List (String × FnDef) := []
deriving DecidableEq, Repr

/-- A variable declaration: `initFn` is its initializer when that is an
arrow function or function expression, and `typeClasses` are the class
declarations of its inferred type's symbol (resolveObjectType). -/
structure VarDecl where
  filePath : String
  initFn : Option FnDef := none
  typeClasses : List ClassDef := []
deriving DecidableEq, Repr

/-- One import declaration: the default-import and named-import names it
brings in, and the path of its module specifier's source file when
ts-morph can resolve it. -/
structure ImportDecl where
  names : List String
  moduleFile : Option String := none
deriving DecidableEq, Repr

/-- A source file (ts-morph SourceFile): its path, the
`@funcstory-skip-file` marker (the result of shouldSkipFile), and its
declarations. -/
structure SourceFile where
  path : String
  skipFile : Bool := false
  functions : List (String × FnDef) := []
  vars : List (String × VarDecl) := []
  classes : List (String × ClassDef) := []
  fileImports : List ImportDecl := []
deriving DecidableEq, Repr

/-- The project: the set of source files visible to the tracer. -/
structure Project where
  files : List SourceFile
deriving DecidableEq, Repr

def Project.getFile (p : Project) (path : String) : Option SourceFile :=
  p.files.find? (fun f => f.path == path)

def SourceFile.getFunction (f : SourceFile) (name : String) : Option FnDef :=
  (f.functions.find? (fun x => x.1 == name)).map (fun x => x.2)

def SourceFile.getVariableDeclaration (f : SourceFile) (name : String) : Option VarDecl :=
  (f.vars.find? (fun x => x.1 == name)).map (fun x => x.2)

def SourceFile.getClass (f : SourceFile) (name : String) : Option ClassDef :=
  (f.classes.find? (fun x => x.1 == name)).map (fun x => x.2)

def ClassDef.getMethod (c : ClassDef) (name : String) : Option FnDef :=
  (c.methods.find? (fun x => x.1 == name)).map (fun x => x.2)

-- ===== Tracer configuration =====

/-- The options record handed to the FunctionTracer constructor
(TraceOptions).  `maxDepth` is `none` when the option was omitted. -/
structure TraceOptions where
  scopeDirectory : String
  maxDepth : Option Nat := none
  oneline : Bool := false
deriving DecidableEq, Repr

/-- The tracer's fields after construction.  `fuel` is a modelling
artifact bounding the import-following recursion of the resolution layer
(the source has no such bound). -/
structure Config where
  scopeDirectory : String
  maxDepth : Nat
  includeStory : Bool
  fuel : Nat
deriving DecidableEq, Repr

/-- The FunctionTracer constructor: `this.maxDepth = options.maxDepth || 10`
(JS `||`, so an explicit 0 falls back to the default 10) and
`this.includeStory = !options.oneline`.  `path.resolve` on the scope
directory is modelled as the identity. -/
def mkConfig (opts : TraceOptions) (fuel : Nat) : Config :=
  { scopeDirectory := opts.scopeDirectory,
    maxDepth := match opts.maxDepth with
      | some m => if m == 0 then 10 else m
      | none => 10,
    includeStory := !opts.oneline,
    fuel := fuel }

/-- `isInScope`: the defining file path starts with the scope directory. -/
def isInScope (cfg : Config) (filePath : String) : Bool :=
  jsStartsWith cfg.scopeDirectory filePath

/-- `shouldSkipFile`: the file-top `@funcstory-skip-file` marker. -/
def shouldSkipFile (f : SourceFile) : Bool := f.skipFile

/-- `shouldSkipFunction`: the `@funcstory-skip` JSDoc tag. -/
def shouldSkipFunction (d : FnDef) : Bool := d.skip

-- ===== Resolution layer =====

/-- The import loop shared by findFunctionDefinition and
findMethodDefinition: scan the import declarations in order; on a name
match whose module file resolves, return the recursive lookup in that
module (even when it is null); a match without a resolvable module file
falls through to the next import. -/
def lookupThroughImports (p : Project) (name : String)
    (recur : SourceFile → Option (Option FnDef)) :
    List ImportDecl → Option (Option FnDef)
  | [] => some none
  | imp :: rest =>
    if name ∈ imp.names then
      match imp.moduleFile.bind p.getFile with
      | some mf => recur mf
      | none => lookupThroughImports p name recur rest
    else lookupThroughImports p name recur rest

/-- `findFunctionDefinition`, with fuel bounding the import recursion.
The outermost `none` marks exhausted fuel (the unbounded original does not
return).  Order of checks as in the source: skip-file marker, function
declaration, variable with function initializer, then imports. -/
def findFunctionDefinitionF (p : Project) :
    Nat → SourceFile → String → Option (Option FnDef)
  | 0, _, _ => none
  | Nat.succ fuel, sourceFile, functionName =>
    if shouldSkipFile sourceFile then some none
    else match sourceFile.getFunction functionName with
    | some d => some (some d)
    | none =>
      match (sourceFile.getVariableDeclaration functionName).bind (fun v => v.initFn) with
      | some d => some (some d)
      | none =>
        lookupThroughImports p functionName
          (fun mf => findFunctionDefinitionF p fuel mf functionName)
          sourceFile.fileImports

/-- `findMethodDefinition`, fuelled like `findFunctionDefinitionF`.  When
the class is declared locally its `getMethod` result is returned directly,
even when the method is absent (the source `return`s there). -/
def findMethodDefinitionF (p : Project) :
    Nat → SourceFile → String → String → Option (Option FnDef)
  | 0, _, _, _ => none
  | Nat.succ fuel, sourceFile, className, methodName =>
    if shouldSkipFile sourceFile then some none
    else match sourceFile.getClass className with
    | some classDecl => some (classDecl.getMethod methodName)
    | none =>
      lookupThroughImports p className
        (fun mf => findMethodDefinitionF p fuel mf className methodName)
        sourceFile.fileImports

/-- `findMethodInCurrentClass`: look the method up in the call site's
nearest enclosing class declaration (modelled by name in the call's own
file). -/
def findMethodInCurrentClass (file : SourceFile) (cs : CallSite)
    (methodName : String) : Option FnDef :=
  match cs.enclosingClass with
  | some cls => (file.getClass cls).bind (fun c => c.getMethod methodName)
  | none => none

/-- `resolveObjectType`: the first class declaration of the variable's
type symbol that has the method. -/
def resolveObjectType (v : VarDecl) (methodName : String) : Option FnDef :=
  v.typeClasses.findSome? (fun c => c.getMethod methodName)

/-- The record produced by `resolveCall`. -/
structure CallInfo where
  name : String
  target : Option FnDef
  isExternal : Bool
deriving DecidableEq, Repr

/-- `!target || !this.isInScope(target)`. -/
def extFlag (cfg : Config) : Option FnDef → Bool
  | none => true
  | some t => !(isInScope cfg t.filePath)

/-- `resolveCall`: simple identifier calls resolve through
findFunctionDefinition; property-access calls through
findMethodInCurrentClass (receiver `this`) or findMethodDefinition; other
call expressions yield null.  The outermost `none` marks a diverging
resolution (exhausted fuel). -/
def resolveCall (p : Project) (cfg : Config) (file : SourceFile)
    (cs : CallSite) : Option (Option CallInfo) :=
  match cs.expr with
  | CallExpr.ident name =>
    match findFunctionDefinitionF p cfg.fuel file name with
    | none => none
    | some target =>
      some (some { name := name, target := target, isExternal := extFlag cfg target })
  | CallExpr.prop objName propName =>
    let name := objName ++ "." ++ propName
    if objName == "this" then
      let target := findMethodInCurrentClass file cs propName
      some (some { name := name, target := target, isExternal := extFlag cfg target })
    else
      match findMethodDefinitionF p cfg.fuel file objName propName with
      | none => none
      | some target =>
        some (some { name := name, target := target, isExternal := extFlag cfg target })
  | CallExpr.other => some none

/-- The object.method tail of `isWithinScope`: the checks performed after
the local-class branch did not return (findMethodDefinition target, then
variable with resolvable object type). -/
def isWithinScopeMethodTail (p : Project) (cfg : Config) (file : SourceFile)
    (objectName methodName : String) : Option Bool :=
  match findMethodDefinitionF p cfg.fuel file objectName methodName with
  | none => none
  | some target =>
    if (match target with
        | some t => isInScope cfg t.filePath
        | none => false) then some true
    else
      match file.getVariableDeclaration objectName with
      | some v =>
        if isInScope cfg v.filePath then
          some (match resolveObjectType v methodName with
                | some m => isInScope cfg m.filePath
                | none => false)
        else some false
      | none => some false

/-- `isWithinScope`, the scope-admission test: `this.` calls check the
call site's own file; simple calls check a local function declaration, a
local variable declaration, then the resolved definition; object.method
calls check a local in-scope class (returning from that branch), then the
resolved method, then a typed local variable.  The outermost `none` marks
a diverging resolution. -/
def isWithinScope (p : Project) (cfg : Config) (file : SourceFile)
    (cs : CallSite) (functionName : String) : Option Bool :=
  if jsStartsWith "this." functionName then
    some (isInScope cfg file.path)
  else if !(jsIncludesChar functionName '.') then
    let b1 := match file.getFunction functionName with
      | some fd => isInScope cfg fd.filePath
      | none => false
    if b1 then some true
    else
      let b2 := match file.getVariableDeclaration functionName with
        | some v => isInScope cfg v.filePath
        | none => false
      if b2 then some true
      else
        match findFunctionDefinitionF p cfg.fuel file functionName with
        | none => none
        | some (some target) => some (isInScope cfg target.filePath)
        | some none => some false
  else
    let parts := jsSplitChar '.' functionName
    let objectName := parts.headD ""
    let methodName := parts.getLastD ""
    match file.getClass objectName with
    | some classDecl =>
      if isInScope cfg classDecl.filePath then
        some (match classDecl.getMethod methodName with
              | some m => isInScope cfg m.filePath
              | none => false)
      else isWithinScopeMethodTail p cfg file objectName methodName
    | none => isWithinScopeMethodTail p cfg file objectName methodName

-- ===== Call trace nodes =====

/-- The scalar fields of a CallTrace node. -/
structure TraceInfo where
  name : String
  isRecursive : Bool
  isExternal : Bool
  functionPath : String
  fileName : String
  lineNumber : Nat
  isSkipped : Bool
  jsDocDescription : Option String
  jsDocRemarks : Option String
deriving DecidableEq, Repr

/-- A CallTrace node: its fields plus the ordered list of children. -/
inductive CallTrace where
  | mk (info : TraceInfo) (children : List CallTrace)

def CallTrace.info : CallTrace → TraceInfo
  | CallTrace.mk i _ => i

def CallTrace.children : CallTrace → List CallTrace
  | CallTrace.mk _ c => c

def CallTrace.name (t : CallTrace) : String := t.info.name

def CallTrace.isRecursive (t : CallTrace) : Bool := t.info.isRecursive

def CallTrace.isExternal (t : CallTrace) : Bool := t.info.isExternal

def CallTrace.isSkipped (t : CallTrace) : Bool := t.info.isSkipped

def CallTrace.fileName (t : CallTrace) : String := t.info.fileName

def CallTrace.lineNumber (t : CallTrace) : Nat := t.info.lineNumber

-- ===== Traversal engine =====

/-- `recursionStack.add`: JS Set add (no duplicate is created). -/
def setAdd (s : List String) (x : String) : List String :=
  if x ∈ s then s else x :: s

/-- `recursionStack.delete`: JS Set delete (the element is removed). -/
def setDel (s : List String) (x : String) : List String :=
  s.filter (fun y => !(y == x))

/-- The `trace` record built at the head of `traceFunction`, before the
stop checks (children still empty). -/
def baseInfo (cfg : Config) (d : FnDef) (functionName : String)
    (currentPath stack : List String) : TraceInfo :=
  { name := functionName,
    isRecursive := decide (functionName ∈ stack),
    isExternal := false,
    functionPath := joinArrow (currentPath ++ [functionName]),
    fileName := d.filePath,
    lineNumber := d.line,
    isSkipped := shouldSkipFunction d,
    jsDocDescription := if cfg.includeStory then d.descr else none,
    jsDocRemarks := if cfg.includeStory then d.remarks else none }

/-- `isSkipped || isRecursive || depth >= this.maxDepth`. -/
def stopCheck (cfg : Config) (d : FnDef) (functionName : String)
    (depth : Nat) (stack : List String) : Bool :=
  shouldSkipFunction d || decide (functionName ∈ stack)
    || decide (cfg.maxDepth ≤ depth)

/-- `traceCall`: external or unresolved targets become external leaf nodes
(with the target's location when it exists, else the sentinel
`external`/0); a skip-tagged target yields null (first component `none`);
otherwise recurse into `traceFunction` (the `recur` callback) at the same
depth.  The recursion-stack value is threaded in the second component. -/
def traceCallG (cfg : Config)
    (recur : FnDef → String → Nat → List String → List String →
      Option (CallTrace × List String))
    (ci : CallInfo) (depth : Nat) (currentPath stack : List String) :
    Option (Option CallTrace × List String) :=
  if ci.isExternal || ci.target.isNone then
    let loc : String × Nat :=
      match ci.target with
      | some t => (t.filePath, t.line)
      | none => ("external", 0)
    some (some (CallTrace.mk
      { name := ci.name,
        isRecursive := false,
        isExternal := true,
        functionPath := joinArrow (currentPath ++ [ci.name]),
        fileName := loc.1,
        lineNumber := loc.2,
        isSkipped := false,
        jsDocDescription := none,
        jsDocRemarks := none } []), stack)
  else
    match ci.target with
    | none => none
    | some t =>
      if shouldSkipFunction t then some (none, stack)
      else
        match recur t ci.name depth currentPath stack with
        | none => none
        | some (tr, st) => some (some tr, st)

/-- The `for (const callExpr of callExpressions)` loop of `traceFunction`:
resolve each call, apply the scope-admission test, and push the non-null
results of `traceCall` in order.  The recursion-stack value threads
through the loop exactly as the mutable Set does in the source. -/
def traceChildrenG (p : Project) (cfg : Config)
    (recur : FnDef → String → Nat → List String → List String →
      Option (CallTrace × List String))
    (file : SourceFile) :
    List CallSite → Nat → List String → List String →
      Option (List CallTrace × List String)
  | [], _, _, stack => some ([], stack)
  | cs :: rest, childDepth, newPath, stack =>
    match resolveCall p cfg file cs with
    | none => none
    | some none => traceChildrenG p cfg recur file rest childDepth newPath stack
    | some (some ci) =>
      match isWithinScope p cfg file cs ci.name with
      | none => none
      | some false => traceChildrenG p cfg recur file rest childDepth newPath stack
      | some true =>
        match traceCallG cfg recur ci childDepth newPath stack with
        | none => none
        | some (ct, st) =>
          match traceChildrenG p cfg recur file rest childDepth newPath st with
          | none => none
          | some (cts, st2) =>
            some ((match ct with
                   | some c => c :: cts
                   | none => cts), st2)

/-- `traceFunction`: build the node, stop on skip / recursion / depth
limit, otherwise add the name to the recursion stack, trace the body's
retained calls at depth+1 and remove the name again.  `gas` is the
structural recursion bound (the source recursion is bounded by the depth
check alone); a `none` result marks exhausted gas or a diverging
resolution. -/
def traceFunctionG (p : Project) (cfg : Config) :
    Nat → FnDef → String → Nat → List String → List String →
      Option (CallTrace × List String)
  | 0, d, functionName, depth, currentPath, stack =>
    if stopCheck cfg d functionName depth stack then
      some (CallTrace.mk (baseInfo cfg d functionName currentPath stack) [], stack)
    else none
  | Nat.succ gas, d, functionName, depth, currentPath, stack =>
    if stopCheck cfg d functionName depth stack then
      some (CallTrace.mk (baseInfo cfg d functionName currentPath stack) [], stack)
    else
      match p.getFile d.filePath with
      | none => none
      | some file =>
        match traceChildrenG p cfg (traceFunctionG p cfg gas) file d.body
            (depth + 1) (currentPath ++ [functionName])
            (setAdd stack functionName) with
        | none => none
        | some (children, stack2) =>
          some (CallTrace.mk (baseInfo cfg d functionName currentPath stack)
            children, setDel stack2 functionName)

/-- `findEntryPoint`: `Class.method` entries resolve through the class;
bare names try a function declaration, then a variable declaration (the
traced node being its function initializer), then any method declaration
of that name (the descendant search). -/
def findEntryPoint (file : SourceFile) (entryPoint : String) : Option FnDef :=
  if jsIncludesChar entryPoint '.' then
    let parts := jsSplitChar '.' entryPoint
    let className := parts.headD ""
    let methodName := (parts.drop 1).headD ""
    match file.getClass className with
    | some classDecl => classDecl.getMethod methodName
    | none => none
  else
    match file.getFunction entryPoint with
    | some d => some d
    | none =>
      match (file.getVariableDeclaration entryPoint).bind (fun v => v.initFn) with
      | some d => some d
      | none => file.classes.findSome? (fun kc => kc.2.getMethod entryPoint)

/-- `trace`: locate the entry point in the file and run `traceFunction`
from depth 0 with empty path and recursion stack.  `none` covers the
thrown entry-point error and the modelling artifacts (exhausted gas or
fuel). -/
def trace (p : Project) (cfg : Config) (gas : Nat)
    (filePath entryPoint : String) : Option CallTrace :=
  match p.getFile filePath with
  | none => none
  | some file =>
    match findEntryPoint file entryPoint with
    | none => none
    | some entryFunction =>
      match traceFunctionG p cfg gas entryFunction entryPoint 0 [] [] with
      | none => none
      | some (t, _) => some t

-- ===== Formatter =====

/-- Modelled collaborator: `path.relative(cwd, file)`.  The identity when
the working directory is empty; otherwise strips a leading `cwd/`. -/
def pathRelative (cwd fileName : String) : String :=
  if cwd == "" then fileName
  else if jsStartsWith (cwd ++ "/") fileName then
    String.mk (fileName.data.drop (cwd.data.length + 1))
  else fileName

/-- `getChildPrefix`: pad the 1-based child index with zeros to the width
of the sibling count, then extend the parent's label (stripping its
trailing dot first, or starting a fresh `N.` label at the root). -/
def getChildPrefix (parentPfx : String) (childIndex totalSiblings : Nat) : String :=
  let padding := (toString totalSiblings).length
  let paddedIndex := jsPadStart (toString childIndex) padding '0'
  if parentPfx == "" then paddedIndex ++ "."
  else
    let cleanPfx := if jsEndsWith parentPfx "." then jsDropLast parentPfx
                    else parentPfx
    cleanPfx ++ "." ++ paddedIndex

/-- The JSDoc narrative block appended after a node's header line. -/
def jsDocBlock (descr remarks : Option String) : String :=
  if descr.isNone && remarks.isNone then ""
  else
    "\x1b[90m"
    ++ (match descr with
        | some s => s ++ "\n"
        | none => "")
    ++ (match remarks with
        | some r => (if descr.isSome then "\n" else "") ++ r ++ "\n"
        | none => "")
    ++ "\x1b[0m" ++ "\n"

/-- `identifyRecursiveFunctions` (pass 1): collect the names of nodes
flagged recursive anywhere in the tree.  `gas` bounds the tree recursion
structurally; only set membership of the result is consumed. -/
def identifyRecursiveFunctionsG : Nat → CallTrace → List String → List String
  | 0, _, acc => acc
  | Nat.succ gas, CallTrace.mk info children, acc =>
    let acc1 := if info.isRecursive then setAdd acc info.name else acc
    children.foldl (fun a c => identifyRecursiveFunctionsG gas c a) acc1

/-- `formatTrace` (pass 2): label, colored name, location (only when both
the file name and the line number are truthy), at most one marker in the
order skipped / recursive / external, narrative block, story-mode blank
line, then the numbered children. -/
def formatTraceG (cwd : String) (includeStory : Bool) (recNames : List String) :
    Nat → CallTrace → String → String
  | 0, _, _ => ""
  | Nat.succ gas, CallTrace.mk info children, pfx =>
    let r1 := if pfx == "" then "" else pfx ++ " "
    let r2 := r1 ++ (if recNames.contains info.name then "\x1b[31m\x1b[1m"
                     else "\x1b[1m")
    let r3 := r2 ++ info.name ++ "\x1b[0m"
    let r4 := r3 ++
      (if info.fileName != "" && info.lineNumber != 0 then
        let fn := if info.fileName == "external" then "external"
                  else pathRelative cwd info.fileName
        " \x1b[90m(" ++ fn ++ ":" ++ toString info.lineNumber ++ ")\x1b[0m"
      else "")
    let r5 := r4 ++
      (if info.isSkipped then " ⏭️"
       else if info.isRecursive then " \x1b[41m\x1b[97m RECURSION \x1b[0m"
       else if info.isExternal then " ↗️"
       else "")
    let r6 := r5 ++ "\n"
    let r7 := r6 ++ jsDocBlock info.jsDocDescription info.jsDocRemarks
    let r8 := r7 ++ (if includeStory then "\n" else "")
    let total := children.length
    r8 ++ String.join (children.enum.map (fun ic =>
      formatTraceG cwd includeStory recNames gas ic.2
        ( getChildPrefix pfx (ic.1 + 1) total)))

/-- `TraceFormatter.format`: run pass 1, then render from the empty
label. -/
def formatReport (cwd : String) (includeStory : Bool) (gas : Nat)
    (t : CallTrace) : String :=
  formatTraceG cwd includeStory (identifyRecursiveFunctionsG gas t []) gas t ""

-- ===== Concrete example projects =====

/-- Shorthand for a node's scalar fields in expected trees. -/
def mkInfo (name fp : String) (ln : Nat) (isRec isExt isSkip : Bool)
    (path : String) : TraceInfo :=
  { name := name, isRecursive := isRec, isExternal := isExt,
    functionPath := path, fileName := fp, lineNumber := ln,
    isSkipped := isSkip, jsDocDescription := none, jsDocRemarks := none }

/-- A one-file project: `main` calls `helper`, both in scope. -/
def helperDef : FnDef := { filePath := "/s/a.ts", line := 5 }

def mainDefW : FnDef :=
  { filePath := "/s/a.ts", line := 1, body := [{ expr := CallExpr.ident "helper" }] }

def fileW : SourceFile :=
  { path := "/s/a.ts", functions := [("main", mainDefW), ("helper", helperDef)] }

def projW : Project := { files := [fileW] }

def cfgW : Config :=
  { scopeDirectory := "/s", maxDepth := 10, includeStory := false, fuel := 5 }

def treeW : CallTrace :=
  CallTrace.mk (mkInfo "main" "/s/a.ts" 1 false false false "main")
    [CallTrace.mk (mkInfo "helper" "/s/a.ts" 5 false false false "main → helper") []]

/-- Out-of-scope resolution: in-scope `/s/a.ts` calls `g`, resolved
through its import to `/x/b.ts`, which lies outside the scope root. -/
def gOutDef : FnDef := { filePath := "/x/b.ts", line := 2 }

def mainDefOut : FnDef :=
  { filePath := "/s/a.ts", line := 1, body := [{ expr := CallExpr.ident "g" }] }

def fileOutA : SourceFile :=
  { path := "/s/a.ts", functions := [("main", mainDefOut)],
    fileImports := [{ names := ["g"], moduleFile := some "/x/b.ts" }] }

def fileOutB : SourceFile := { path := "/x/b.ts", functions := [("g", gOutDef)] }

def projOut : Project := { files := [fileOutA, fileOutB] }

/-- Skip-file, cross-file: `/s/a.ts` calls `h`, imported from the
in-scope `/s/skip.ts`, which carries the skip-file marker and defines `h`. -/
def hSkipDef : FnDef := { filePath := "/s/skip.ts", line := 3 }

def mainDefSkip : FnDef :=
  { filePath := "/s/a.ts", line := 1, body := [{ expr := CallExpr.ident "h" }] }

def fileSkipCaller : SourceFile :=
  { path := "/s/a.ts", functions := [("main", mainDefSkip)],
    fileImports := [{ names := ["h"], moduleFile := some "/s/skip.ts" }] }

def fileSkipped : SourceFile :=
  { path := "/s/skip.ts", skipFile := true, functions := [("h", hSkipDef)] }

def projSkipCall : Project := { files := [fileSkipCaller, fileSkipped] }

/-- Skip-file, same file: entry `f` lives in the skip-marked file and
calls the local `g`; the lookup fails, so `g` renders as external. -/
def gSelfDef : FnDef := { filePath := "/s/skip.ts", line := 7 }

def fSelfDef : FnDef :=
  { filePath := "/s/skip.ts", line := 2, body := [{ expr := CallExpr.ident "g" }] }

def fileSkipSelf : SourceFile :=
  { path := "/s/skip.ts", skipFile := true,
    functions := [("f", fSelfDef), ("g", gSelfDef)] }

def projSkipSelf : Project := { files := [fileSkipSelf] }

def treeSkipSelf : CallTrace :=
  CallTrace.mk (mkInfo "f" "/s/skip.ts" 2 false false false "f")
    [CallTrace.mk (mkInfo "g" "external" 0 false true false "f → g") []]

/-- Name collision on the path: `main` calls in-scope `x` (via `/s/c.ts`),
`x` calls in-scope `q` (via `/s/d.ts`), and `q`'s body calls `x` again —
but `/s/d.ts` only has a non-function variable `x`, so that last call is
a retained, unresolved external whose display name equals the expanded
ancestor `x`. -/
def qDef : FnDef :=
  { filePath := "/s/d.ts", line := 2, body := [{ expr := CallExpr.ident "x" }] }

def xDef : FnDef :=
  { filePath := "/s/c.ts", line := 2, body := [{ expr := CallExpr.ident "q" }] }

def mainDefRec : FnDef :=
  { filePath := "/s/a.ts", line := 1, body := [{ expr := CallExpr.ident "x" }] }

def fileRecA : SourceFile :=
  { path := "/s/a.ts", functions := [("main", mainDefRec)],
    fileImports := [{ names := ["x"], moduleFile := some "/s/c.ts" }] }

def fileRecC : SourceFile :=
  { path := "/s/c.ts", functions := [("x", xDef)],
    fileImports := [{ names := ["q"], moduleFile := some "/s/d.ts" }] }

def fileRecD : SourceFile :=
  { path := "/s/d.ts", functions := [("q", qDef)],
    vars := [("x", { filePath := "/s/d.ts" })] }

def projRec : Project := { files := [fileRecA, fileRecC, fileRecD] }

def nodeExtX : CallTrace :=
  CallTrace.mk (mkInfo "x" "external" 0 false true false "main → x → q → x") []

def nodeQ : CallTrace :=
  CallTrace.mk (mkInfo "q" "/s/d.ts" 2 false false false "main → x → q") [nodeExtX]

def nodeX : CallTrace :=
  CallTrace.mk (mkInfo "x" "/s/c.ts" 2 false false false "main → x") [nodeQ]

def treeRec : CallTrace :=
  CallTrace.mk (mkInfo "main" "/s/a.ts" 1 false false false "main") [nodeX]

/-- Cyclic re-export: `/s/A.ts` and `/s/B.ts` each re-import `f` and `C`
from the other; neither defines them. -/
def fileCycA : SourceFile :=
  { path := "/s/A.ts",
    fileImports := [{ names := ["f", "C"], moduleFile := some "/s/B.ts" }] }

def fileCycB : SourceFile :=
  { path := "/s/B.ts",
    fileImports := [{ names := ["f", "C"], moduleFile := some "/s/A.ts" }] }

def projCyc : Project := { files := [fileCycA, fileCycB] }

/-- Callee-skip: `f` calls the skip-tagged in-scope `g`. -/
def gTaggedDef : FnDef := { filePath := "/s/k.ts", line := 4, skip := true }

def fCallerDef : FnDef :=
  { filePath := "/s/k.ts", line := 1, body := [{ expr := CallExpr.ident "g" }] }

def fileTag : SourceFile :=
  { path := "/s/k.ts", functions := [("f", fCallerDef), ("g", gTaggedDef)] }

def projTag : Project := { files := [fileTag] }

-- ===== Basic lemmas about the recursion-stack set =====

theorem mem_setAdd {s : List String} {x y : String} :
    y ∈ setAdd s x ↔ y = x ∨ y ∈ s := by
  unfold setAdd
  split
  · constructor
    · exact fun h => Or.inr h
    · rintro (rfl | h)
      · assumption
      · exact h
  · simp [List.mem_cons]

theorem setDel_setAdd {s : List String} {x : String} (h : x ∉ s) :
    setDel (setAdd s x) x = s := by
  unfold setAdd setDel
  rw [if_neg h]
  have hall : ∀ a ∈ s, (!(a == x)) = true := fun a ha => by
    simp only [Bool.not_eq_true']
    exact beq_eq_false_iff_ne.mpr (fun e => h (e ▸ ha))
  simp [List.filter_cons, List.filter_eq_self.mpr hall]

theorem stopCheck_false {cfg : Config} {d : FnDef} {fname : String}
    {depth : Nat} {stack : List String}
    (h : stopCheck cfg d fname depth stack = false) :
    shouldSkipFunction d = false ∧ fname ∉ stack ∧ depth < cfg.maxDepth := by
  unfold stopCheck at h
  simp only [Bool.or_eq_false_iff, decide_eq_false_iff_not, Nat.not_le] at h
  exact ⟨h.1.1, h.1.2, h.2⟩

theorem stopCheck_true_of_skip {cfg : Config} {d : FnDef} {fname : String}
    {depth : Nat} {stack : List String} (h : shouldSkipFunction d = true) :
    stopCheck cfg d fname depth stack = true := by
  unfold stopCheck
  rw [h]
  rfl

-- ===== Stack restoration: the recursion set is returned unchanged =====

theorem traceCallG_stack {cfg : Config}
    {recur : FnDef → String → Nat → List String → List String →
      Option (CallTrace × List String)}
    (hrec : ∀ d n dep pa st t st2, recur d n dep pa st = some (t, st2) → st2 = st)
    {ci : CallInfo} {depth : Nat} {path stack : List String}
    {ct : Option CallTrace} {st2 : List String}
    (h : traceCallG cfg recur ci depth path stack = some (ct, st2)) :
    st2 = stack := by
  unfold traceCallG at h
  split at h
  · simp only [Option.some.injEq, Prod.mk.injEq] at h
    exact h.2.symm
  · split at h
    · exact absurd h (by simp)
    · rename_i t
      split at h
      · simp only [Option.some.injEq, Prod.mk.injEq] at h
        exact h.2.symm
      · split at h
        · exact absurd h (by simp)
        · rename_i tr st heq
          simp only [Option.some.injEq, Prod.mk.injEq] at h
          exact h.2 ▸ hrec _ _ _ _ _ _ _ heq

theorem traceChildrenG_stack {p : Project} {cfg : Config}
    {recur : FnDef → String → Nat → List String → List String →
      Option (CallTrace × List String)}
    (hrec : ∀ d n dep pa st t st2, recur d n dep pa st = some (t, st2) → st2 = st)
    {file : SourceFile} :
    ∀ {sites : List CallSite} {depth : Nat} {path stack : List String}
      {cts : List CallTrace} {st2 : List String},
      traceChildrenG p cfg recur file sites depth path stack = some (cts, st2) →
      st2 = stack := by
  intro sites
  induction sites with
  | nil =>
    intro depth path stack cts st2 h
    simp only [traceChildrenG, Option.some.injEq, Prod.mk.injEq] at h
    exact h.2.symm
  | cons cs rest ih =>
    intro depth path stack cts st2 h
    unfold traceChildrenG at h
    split at h
    · exact absurd h (by simp)
    · exact ih h
    · rename_i ci _
      split at h
      · exact absurd h (by simp)
      · exact ih h
      · split at h
        · exact absurd h (by simp)
        · rename_i ct st hcall
          split at h
          · exact absurd h (by simp)
          · rename_i cts1 st3 hrest
            simp only [Option.some.injEq, Prod.mk.injEq] at h
            have h1 : st = stack := traceCallG_stack hrec hcall
            have h2 : st3 = st := ih hrest
            exact h.2 ▸ (h2.trans h1)

theorem traceFunctionG_stack (p : Project) (cfg : Config) :
    ∀ (gas : Nat) {d : FnDef} {fname : String} {depth : Nat}
      {path stack : List String} {t : CallTrace} {st2 : List String},
      traceFunctionG p cfg gas d fname depth path stack = some (t, st2) →
      st2 = stack := by
  intro gas
  induction gas with
  | zero =>
    intro d fname depth path stack t st2 h
    unfold traceFunctionG at h
    split at h
    · simp only [Option.some.injEq, Prod.mk.injEq] at h
      exact h.2.symm
    · exact absurd h (by simp)
  | succ gas ih =>
    intro d fname depth path stack t st2 h
    unfold traceFunctionG at h
    split at h
    · simp only [Option.some.injEq, Prod.mk.injEq] at h
      exact h.2.symm
    · rename_i hstop
      split at h
      · exact absurd h (by simp)
      · split at h
        · exact absurd h (by simp)
        · rename_i children stack2 hch
          simp only [Option.some.injEq, Prod.mk.injEq] at h
          have h1 : stack2 = setAdd stack fname :=
            traceChildrenG_stack (fun d n dep pa st t st2 => ih) hch
          have hsc : stopCheck cfg d fname depth stack = false := by
            cases hv : stopCheck cfg d fname depth stack
            · rfl
            · exact absurd hv hstop
          have h2 : fname ∉ stack := (stopCheck_false hsc).2.1
          rw [← h.2, h1, setDel_setAdd h2]

-- ===== Tree predicates =====

@[simp] theorem CallTrace.info_mk (i : TraceInfo) (cs : List CallTrace) :
    (CallTrace.mk i cs).info = i := rfl

@[simp] theorem CallTrace.children_mk (i : TraceInfo) (cs : List CallTrace) :
    (CallTrace.mk i cs).children = cs := rfl

/-- Every node of the tree satisfies `P`. -/
inductive AllNodes (P : CallTrace → Prop) : CallTrace → Prop where
  | node (t : CallTrace) (hp : P t) (hc : ∀ c ∈ t.children, AllNodes P c) :
      AllNodes P t

/-- A traversal-stopping flag forces an empty child list. -/
def stopLeaf (t : CallTrace) : Prop :=
  (t.isRecursive = true ∨ t.isExternal = true ∨ t.isSkipped = true) →
    t.children = []

theorem traceCallG_allNodes {cfg : Config}
    {recur : FnDef → String → Nat → List String → List String →
      Option (CallTrace × List String)}
    (hrec : ∀ d n dep pa st t st2, recur d n dep pa st = some (t, st2) →
      AllNodes stopLeaf t)
    {ci : CallInfo} {depth : Nat} {path stack : List String}
    {ct : CallTrace} {st2 : List String}
    (h : traceCallG cfg recur ci depth path stack = some (some ct, st2)) :
    AllNodes stopLeaf ct := by
  unfold traceCallG at h
  split at h
  · simp only [Option.some.injEq, Prod.mk.injEq, Option.some.injEq] at h
    rw [← h.1]
    exact AllNodes.node _ (fun _ => rfl) (by intro c hc; simp at hc)
  · split at h
    · exact absurd h (by simp)
    · split at h
      · simp at h
      · split at h
        · exact absurd h (by simp)
        · rename_i tr st heq
          simp only [Option.some.injEq, Prod.mk.injEq, Option.some.injEq] at h
          exact h.1 ▸ hrec _ _ _ _ _ _ _ heq

theorem traceChildrenG_allNodes {p : Project} {cfg : Config}
    {recur : FnDef → String → Nat → List String → List String →
      Option (CallTrace × List String)}
    (hrec : ∀ d n dep pa st t st2, recur d n dep pa st = some (t, st2) →
      AllNodes stopLeaf t)
    {file : SourceFile} :
    ∀ {sites : List CallSite} {depth : Nat} {path stack : List String}
      {cts : List CallTrace} {st2 : List String},
      traceChildrenG p cfg recur file sites depth path stack = some (cts, st2) →
      ∀ c ∈ cts, AllNodes stopLeaf c := by
  intro sites
  induction sites with
  | nil =>
    intro depth path stack cts st2 h
    simp only [traceChildrenG, Option.some.injEq, Prod.mk.injEq] at h
    rw [← h.1]
    intro c hc
    simp at hc
  | cons cs rest ih =>
    intro depth path stack cts st2 h
    unfold traceChildrenG at h
    split at h
    · exact absurd h (by simp)
    · exact ih h
    · rename_i ci _
      split at h
      · exact absurd h (by simp)
      · exact ih h
      · split at h
        · exact absurd h (by simp)
        · rename_i ct st hcall
          split at h
          · exact absurd h (by simp)
          · rename_i cts1 st3 hrest
            simp only [Option.some.injEq, Prod.mk.injEq] at h
            intro c hc
            rw [← h.1] at hc
            match ct, hcall with
            | some cnode, hcall =>
              simp only [List.mem_cons] at hc
              cases hc with
              | inl he => exact he ▸ traceCallG_allNodes hrec hcall
              | inr hm => exact ih hrest c hm
            | none, hcall =>
              exact ih hrest c hc

theorem traceFunctionG_allNodes (p : Project) (cfg : Config) :
    ∀ (gas : Nat) {d : FnDef} {fname : String} {depth : Nat}
      {path stack : List String} {t : CallTrace} {st2 : List String},
      traceFunctionG p cfg gas d fname depth path stack = some (t, st2) →
      AllNodes stopLeaf t := by
  intro gas
  induction gas with
  | zero =>
    intro d fname depth path stack t st2 h
    unfold traceFunctionG at h
    split at h
    · simp only [Option.some.injEq, Prod.mk.injEq] at h
      rw [← h.1]
      exact AllNodes.node _ (fun _ => rfl) (by intro c hc; simp at hc)
    · exact absurd h (by simp)
  | succ gas ih =>
    intro d fname depth path stack t st2 h
    unfold traceFunctionG at h
    split at h
    · simp only [Option.some.injEq, Prod.mk.injEq] at h
      rw [← h.1]
      exact AllNodes.node _ (fun _ => rfl) (by intro c hc; simp at hc)
    · rename_i hstop
      have hsc : stopCheck cfg d fname depth stack = false := by
        cases hv : stopCheck cfg d fname depth stack
        · rfl
        · exact absurd hv hstop
      split at h
      · exact absurd h (by simp)
      · split at h
        · exact absurd h (by simp)
        · rename_i children stack2 hch
          simp only [Option.some.injEq, Prod.mk.injEq] at h
          rw [← h.1]
          refine AllNodes.node _ ?_ ?_
          · intro hflag
            exfalso
            obtain ⟨hskip, hmem, _⟩ := stopCheck_false hsc
            rcases hflag with hf | hf | hf
            · simp [CallTrace.isRecursive, baseInfo] at hf
              exact hmem hf
            · simp [CallTrace.isExternal, baseInfo] at hf
            · simp [CallTrace.isSkipped, baseInfo] at hf
              rw [hskip] at hf
              exact Bool.false_ne_true hf
          · intro c hc
            simp only [CallTrace.children_mk] at hc
            exact traceChildrenG_allNodes
              (fun d n dep pa st t st2 hh => ih hh) hch c hc

/-- C1: in every call tree returned by trace, a node whose isRecursive,
isExternal, or isSkipped flag is true has an empty children list —
traceFunction returns before expanding on skip, recursion, or the depth
limit, and traceCall builds external nodes with no children. -/
theorem trace_stop_flags_leaf (p : Project) (cfg : Config) (gas : Nat)
    (fp ep : String) (t : CallTrace) (h : trace p cfg gas fp ep = some t) :
    AllNodes stopLeaf t := by
  unfold trace at h
  split at h
  · exact absurd h (by simp)
  · split at h
    · exact absurd h (by simp)
    · split at h
      · exact absurd h (by simp)
      · rename_i tr st heq
        simp only [Option.some.injEq] at h
        exact h ▸ traceFunctionG_allNodes p cfg _ heq

theorem trace_stop_flags_leaf_witness : AllNodes stopLeaf treeW :=
  trace_stop_flags_leaf projW cfgW 5 "/s/a.ts" "main" treeW rfl

-- ===== Depth bound =====

/-- The whole tree lies within `n` further hops below this node, and a
node with no remaining budget is a leaf. -/
inductive DepthLe : Nat → CallTrace → Prop where
  | node (n : Nat) (t : CallTrace) (hleaf : n = 0 → t.children = [])
      (hc : ∀ c ∈ t.children, DepthLe (n - 1) c) : DepthLe n t

theorem DepthLe_leaf (n : Nat) (i : TraceInfo) : DepthLe n (CallTrace.mk i []) :=
  DepthLe.node n _ (fun _ => rfl) (by intro c hc; simp at hc)

theorem traceCallG_depth {cfg : Config} {m : Nat}
    {recur : FnDef → String → Nat → List String → List String →
      Option (CallTrace × List String)}
    (hrec : ∀ d n dep pa st t st2, recur d n dep pa st = some (t, st2) →
      DepthLe (m - dep) t)
    {ci : CallInfo} {depth : Nat} {path stack : List String}
    {ct : CallTrace} {st2 : List String}
    (h : traceCallG cfg recur ci depth path stack = some (some ct, st2)) :
    DepthLe (m - depth) ct := by
  unfold traceCallG at h
  split at h
  · simp only [Option.some.injEq, Prod.mk.injEq, Option.some.injEq] at h
    exact h.1 ▸ DepthLe_leaf _ _
  · split at h
    · exact absurd h (by simp)
    · split at h
      · simp at h
      · split at h
        · exact absurd h (by simp)
        · rename_i tr st heq
          simp only [Option.some.injEq, Prod.mk.injEq, Option.some.injEq] at h
          exact h.1 ▸ hrec _ _ _ _ _ _ _ heq

theorem traceChildrenG_depth {p : Project} {cfg : Config} {m : Nat}
    {recur : FnDef → String → Nat → List String → List String →
      Option (CallTrace × List String)}
    (hrec : ∀ d n dep pa st t st2, recur d n dep pa st = some (t, st2) →
      DepthLe (m - dep) t)
    {file : SourceFile} :
    ∀ {sites : List CallSite} {depth : Nat} {path stack : List String}
      {cts : List CallTrace} {st2 : List String},
      traceChildrenG p cfg recur file sites depth path stack = some (cts, st2) →
      ∀ c ∈ cts, DepthLe (m - depth) c := by
  intro sites
  induction sites with
  | nil =>
    intro depth path stack cts st2 h
    simp only [traceChildrenG, Option.some.injEq, Prod.mk.injEq] at h
    rw [← h.1]
    intro c hc
    simp at hc
  | cons cs rest ih =>
    intro depth path stack cts st2 h
    unfold traceChildrenG at h
    split at h
    · exact absurd h (by simp)
    · exact ih h
    · rename_i ci _
      split at h
      · exact absurd h (by simp)
      · exact ih h
      · split at h
        · exact absurd h (by simp)
        · rename_i ct st hcall
          split at h
          · exact absurd h (by simp)
          · rename_i cts1 st3 hrest
            simp only [Option.some.injEq, Prod.mk.injEq] at h
            intro c hc
            rw [← h.1] at hc
            match ct, hcall with
            | some cnode, hcall =>
              simp only [List.mem_cons] at hc
              cases hc with
              | inl he => exact he ▸ traceCallG_depth hrec hcall
              | inr hm => exact ih hrest c hm
            | none, hcall =>
              exact ih hrest c hc

theorem traceFunctionG_depth (p : Project) (cfg : Config) :
    ∀ (gas : Nat) {d : FnDef} {fname : String} {depth : Nat}
      {path stack : List String} {t : CallTrace} {st2 : List String},
      traceFunctionG p cfg gas d fname depth path stack = some (t, st2) →
      DepthLe (cfg.maxDepth - depth) t := by
  intro gas
  induction gas with
  | zero =>
    intro d fname depth path stack t st2 h
    unfold traceFunctionG at h
    split at h
    · simp only [Option.some.injEq, Prod.mk.injEq] at h
      exact h.1 ▸ DepthLe_leaf _ _
    · exact absurd h (by simp)
  | succ gas ih =>
    intro d fname depth path stack t st2 h
    unfold traceFunctionG at h
    split at h
    · simp only [Option.some.injEq, Prod.mk.injEq] at h
      exact h.1 ▸ DepthLe_leaf _ _
    · rename_i hstop
      have hsc : stopCheck cfg d fname depth stack = false := by
        cases hv : stopCheck cfg d fname depth stack
        · rfl
        · exact absurd hv hstop
      have hdepth : depth < cfg.maxDepth := (stopCheck_false hsc).2.2
      split at h
      · exact absurd h (by simp)
      · split at h
        · exact absurd h (by simp)
        · rename_i children stack2 hch
          simp only [Option.some.injEq, Prod.mk.injEq] at h
          rw [← h.1]
          refine DepthLe.node _ _ ?_ ?_
          · intro h0
            exfalso
            omega
          · intro c hc
            simp only [CallTrace.children_mk] at hc
            have hrec : ∀ d2 n2 dep pa st t2 st3,
                traceFunctionG p cfg gas d2 n2 dep pa st = some (t2, st3) →
                DepthLe (cfg.maxDepth - dep) t2 :=
              fun d2 n2 dep pa st t2 st3 hh => ih hh
            have := traceChildrenG_depth hrec hch c hc
            have harith : cfg.maxDepth - (depth + 1)
                = cfg.maxDepth - depth - 1 := by omega
            rw [harith] at this
            exact this

/-- C7: for every tree returned by trace with configured maximum depth d,
no node lies more than d node-to-node hops below the entry node (depth 0),
and a node created with no remaining depth budget is a leaf regardless of
its other flags. -/
theorem trace_depth_bound (p : Project) (cfg : Config) (gas : Nat)
    (fp ep : String) (t : CallTrace) (h : trace p cfg gas fp ep = some t) :
    DepthLe cfg.maxDepth t := by
  unfold trace at h
  split at h
  · exact absurd h (by simp)
  · split at h
    · exact absurd h (by simp)
    · split at h
      · exact absurd h (by simp)
      · rename_i tr st heq
        simp only [Option.some.injEq] at h
        have := traceFunctionG_depth p cfg _ heq
        simpa [h] using this

theorem trace_depth_bound_witness : DepthLe 10 treeW :=
  trace_depth_bound projW cfgW 5 "/s/a.ts" "main" treeW rfl

-- ===== Recursion-flag characterization =====

/-- The characterization claimed by the spec: at every node, isRecursive
holds exactly when the node's qualified name occurs among the ancestor
names `P`. -/
inductive RecOkStated : List String → CallTrace → Prop where
  | node (P : List String) (t : CallTrace)
      (hflag : t.isRecursive = true ↔ t.name ∈ P)
      (hc : ∀ c ∈ t.children, RecOkStated (P ++ [t.name]) c) : RecOkStated P t

/-- The characterization the code satisfies: isRecursive holds exactly
when the node is non-external and its name occurs among the ancestor
names (external nodes are built with a hard false flag). -/
inductive RecOkCode : List String → CallTrace → Prop where
  | node (P : List String) (t : CallTrace)
      (hflag : t.isRecursive = true ↔ (t.isExternal = false ∧ t.name ∈ P))
      (hc : ∀ c ∈ t.children, RecOkCode (P ++ [t.name]) c) : RecOkCode P t

theorem traceCallG_recOk {cfg : Config}
    {recur : FnDef → String → Nat → List String → List String →
      Option (CallTrace × List String)}
    (hrecOk : ∀ d n dep pa st t st2, (∀ x, x ∈ st ↔ x ∈ pa) →
      recur d n dep pa st = some (t, st2) → RecOkCode pa t)
    {ci : CallInfo} {depth : Nat} {path stack : List String}
    (hmem : ∀ x, x ∈ stack ↔ x ∈ path)
    {ct : CallTrace} {st2 : List String}
    (h : traceCallG cfg recur ci depth path stack = some (some ct, st2)) :
    RecOkCode path ct := by
  unfold traceCallG at h
  split at h
  · simp only [Option.some.injEq, Prod.mk.injEq, Option.some.injEq] at h
    rw [← h.1]
    refine RecOkCode.node _ _ ?_ ?_
    · simp [CallTrace.isRecursive, CallTrace.isExternal]
    · intro c hc
      simp at hc
  · split at h
    · exact absurd h (by simp)
    · split at h
      · simp at h
      · split at h
        · exact absurd h (by simp)
        · rename_i tr st heq
          simp only [Option.some.injEq, Prod.mk.injEq, Option.some.injEq] at h
          exact h.1 ▸ hrecOk _ _ _ _ _ _ _ hmem heq

theorem traceChildrenG_recOk {p : Project} {cfg : Config}
    {recur : FnDef → String → Nat → List String → List String →
      Option (CallTrace × List String)}
    (hrecStack : ∀ d n dep pa st t st2,
      recur d n dep pa st = some (t, st2) → st2 = st)
    (hrecOk : ∀ d n dep pa st t st2, (∀ x, x ∈ st ↔ x ∈ pa) →
      recur d n dep pa st = some (t, st2) → RecOkCode pa t)
    {file : SourceFile} :
    ∀ {sites : List CallSite} {depth : Nat} {path stack : List String}
      {cts : List CallTrace} {st2 : List String},
      (∀ x, x ∈ stack ↔ x ∈ path) →
      traceChildrenG p cfg recur file sites depth path stack = some (cts, st2) →
      ∀ c ∈ cts, RecOkCode path c := by
  intro sites
  induction sites with
  | nil =>
    intro depth path stack cts st2 hmem h
    simp only [traceChildrenG, Option.some.injEq, Prod.mk.injEq] at h
    rw [← h.1]
    intro c hc
    simp at hc
  | cons cs rest ih =>
    intro depth path stack cts st2 hmem h
    unfold traceChildrenG at h
    split at h
    · exact absurd h (by simp)
    · exact ih hmem h
    · rename_i ci _
      split at h
      · exact absurd h (by simp)
      · exact ih hmem h
      · split at h
        · exact absurd h (by simp)
        · rename_i ct st hcall
          split at h
          · exact absurd h (by simp)
          · rename_i cts1 st3 hrest
            simp only [Option.some.injEq, Prod.mk.injEq] at h
            have hst : st = stack := traceCallG_stack hrecStack hcall
            have hmem2 : ∀ x, x ∈ st ↔ x ∈ path := hst ▸ hmem
            intro c hc
            rw [← h.1] at hc
            match ct, hcall with
            | some cnode, hcall =>
              simp only [List.mem_cons] at hc
              cases hc with
              | inl he => exact he ▸ traceCallG_recOk hrecOk hmem hcall
              | inr hm => exact ih hmem2 hrest c hm
            | none, hcall =>
              exact ih hmem2 hrest c hc

theorem traceFunctionG_recOk (p : Project) (cfg : Config) :
    ∀ (gas : Nat) {d : FnDef} {fname : String} {depth : Nat}
      {path stack : List String} {t : CallTrace} {st2 : List String},
      (∀ x, x ∈ stack ↔ x ∈ path) →
      traceFunctionG p cfg gas d fname depth path stack = some (t, st2) →
      RecOkCode path t := by
  intro gas
  induction gas with
  | zero =>
    intro d fname depth path stack t st2 hmem h
    unfold traceFunctionG at h
    split at h
    · simp only [Option.some.injEq, Prod.mk.injEq] at h
      rw [← h.1]
      refine RecOkCode.node _ _ ?_ ?_
      · simp [CallTrace.isRecursive, CallTrace.isExternal, CallTrace.name, baseInfo, hmem]
      · intro c hc
        simp at hc
    · exact absurd h (by simp)
  | succ gas ih =>
    intro d fname depth path stack t st2 hmem h
    unfold traceFunctionG at h
    split at h
    · simp only [Option.some.injEq, Prod.mk.injEq] at h
      rw [← h.1]
      refine RecOkCode.node _ _ ?_ ?_
      · simp [CallTrace.isRecursive, CallTrace.isExternal, CallTrace.name, baseInfo, hmem]
      · intro c hc
        simp at hc
    · rename_i hstop
      split at h
      · exact absurd h (by simp)
      · split at h
        · exact absurd h (by simp)
        · rename_i children stack2 hch
          simp only [Option.some.injEq, Prod.mk.injEq] at h
          rw [← h.1]
          refine RecOkCode.node _ _ ?_ ?_
          · simp [CallTrace.isRecursive, CallTrace.isExternal, CallTrace.name, baseInfo, hmem]
          · intro c hc
            simp only [CallTrace.children_mk] at hc
            have hmem2 : ∀ x, x ∈ setAdd stack fname ↔
                x ∈ path ++ [(CallTrace.mk (baseInfo cfg d fname path stack) children).name] := by
              intro x
              simp only [mem_setAdd, List.mem_append, List.mem_singleton,
                CallTrace.name, CallTrace.info_mk, baseInfo, hmem]
              tauto
            exact traceChildrenG_recOk
              (fun d2 n2 dep pa st t2 st3 hh => traceFunctionG_stack p cfg gas hh)
              (fun d2 n2 dep pa st t2 st3 hm hh => ih hm hh)
              hmem2 hch c hc

/-- C2 counterexample: on `projRec` the code produces an external leaf
whose display name `x` already occurs on the DFS path main → x → q, yet
its isRecursive flag is false, refuting the claimed iff for every node. -/
theorem recursive_iff_on_path_counterexample :
    trace projRec cfgW 9 "/s/a.ts" "main" = some treeRec
      ∧ ¬ RecOkStated [] treeRec := by
  refine ⟨rfl, ?_⟩
  intro hr
  cases hr with
  | node _ _ hflag0 hc0 =>
    have hx := hc0 nodeX (by simp [treeRec])
    cases hx with
    | node _ _ hflag1 hc1 =>
      have hq := hc1 nodeQ (by simp [nodeX])
      cases hq with
      | node _ _ hflag2 hc2 =>
        have hext := hc2 nodeExtX (by simp [nodeQ])
        cases hext with
        | node _ _ hflag3 _ =>
          have : nodeExtX.isRecursive = true := by
            refine hflag3.mpr ?_
            simp [nodeExtX, CallTrace.name, treeRec, nodeX, nodeQ, mkInfo]
          simp [nodeExtX, CallTrace.isRecursive, mkInfo] at this

/-- C2 amended: isRecursive is true exactly when the node is non-external
and its qualified name already occurs on the active DFS path from the
root to the node's parent (external nodes always carry a false flag, even
on a name collision with an ancestor); and traceFunction removes the name
from the recursion stack when a subtree's expansion finishes, returning
the stack to its entry value, so a name reached through a different
sibling branch is expanded independently. -/
theorem recursive_iff_on_path_amended :
    (∀ p cfg gas fp ep t, trace p cfg gas fp ep = some t → RecOkCode [] t)
    ∧ (∀ p cfg gas d fname depth path stack t st2,
        traceFunctionG p cfg gas d fname depth path stack = some (t, st2) →
        st2 = stack) := by
  constructor
  · intro p cfg gas fp ep t h
    unfold trace at h
    split at h
    · exact absurd h (by simp)
    · split at h
      · exact absurd h (by simp)
      · split at h
        · exact absurd h (by simp)
        · rename_i tr st heq
          simp only [Option.some.injEq] at h
          exact h ▸ traceFunctionG_recOk p cfg gas (by simp) heq
  · intro p cfg gas d fname depth path stack t st2 h
    exact traceFunctionG_stack p cfg gas h

theorem recursive_iff_on_path_amended_witness :
    RecOkCode [] treeW ∧ ([] : List String) = [] :=
  ⟨recursive_iff_on_path_amended.1 projW cfgW 5 "/s/a.ts" "main" treeW rfl,
   recursive_iff_on_path_amended.2 projW cfgW 5 mainDefW "main" 0 [] [] treeW [] rfl⟩

-- ===== Skip asymmetry =====

/-- C4: skip handling is asymmetric.  A call site resolving to an
in-scope definition tagged `@funcstory-skip` contributes nothing to the
parent's child list (the loop step is the same as if the call were
absent); whereas when the definition being visited itself carries the
tag, traceFunction creates its node with isSkipped set and zero
children. -/
theorem skip_asymmetry :
    (∀ p cfg recur file cs rest depth path stack ci dtgt b,
      resolveCall p cfg file cs = some (some ci) →
      ci.isExternal = false →
      ci.target = some dtgt →
      shouldSkipFunction dtgt = true →
      isWithinScope p cfg file cs ci.name = some b →
      traceChildrenG p cfg recur file (cs :: rest) depth path stack
        = traceChildrenG p cfg recur file rest depth path stack)
    ∧ (∀ p cfg gas d fname depth path stack,
      shouldSkipFunction d = true →
      ∃ t, traceFunctionG p cfg gas d fname depth path stack = some (t, stack)
        ∧ t.isSkipped = true ∧ t.children = [] ∧ t.name = fname) := by
  constructor
  · intro p cfg recur file cs rest depth path stack ci dtgt b hres hext htgt hskip hws
    simp only [traceChildrenG, hres, hws]
    cases b
    · rfl
    · simp only [traceCallG, hext, htgt, hskip, Option.isNone_some, Bool.or_self,
        Bool.false_eq_true, if_false, if_true]
      cases hrest : traceChildrenG p cfg recur file rest depth path stack with
      | none => rfl
      | some v =>
        obtain ⟨cts, st2⟩ := v
        rfl
  · intro p cfg gas d fname depth path stack hskip
    refine ⟨CallTrace.mk (baseInfo cfg d fname path stack) [], ?_, ?_, rfl, rfl⟩
    · cases gas with
      | zero =>
        unfold traceFunctionG
        rw [stopCheck_true_of_skip hskip]
        rfl
      | succ gas =>
        unfold traceFunctionG
        rw [stopCheck_true_of_skip hskip]
        rfl
    · simp [CallTrace.isSkipped, baseInfo, hskip]

def ciTag : CallInfo := { name := "g", target := some gTaggedDef, isExternal := false }

theorem skip_asymmetry_witness :
    (traceChildrenG projTag cfgW (traceFunctionG projTag cfgW 3) fileTag
        [{ expr := CallExpr.ident "g" }] 1 ["f"] ["f"]
      = traceChildrenG projTag cfgW (traceFunctionG projTag cfgW 3) fileTag
        [] 1 ["f"] ["f"])
    ∧ ∃ t, traceFunctionG projTag cfgW 3 gTaggedDef "g" 1 ["f"] ["f"]
        = some (t, ["f"])
        ∧ t.isSkipped = true ∧ t.children = [] ∧ t.name = "g" :=
  ⟨skip_asymmetry.1 projTag cfgW (traceFunctionG projTag cfgW 3) fileTag
      { expr := CallExpr.ident "g" } [] 1 ["f"] ["f"] ciTag gTaggedDef true
      rfl rfl rfl rfl rfl,
   skip_asymmetry.2 projTag cfgW 3 gTaggedDef "g" 1 ["f"] ["f"] rfl⟩

-- ===== Out-of-scope resolution (scope boundary) =====

/-- C3 counterexample: in `projOut` the call `g()` in the in-scope
`/s/a.ts` resolves through its import to a definition in `/x/b.ts`,
outside the scope root, yet the returned tree has no child at all for it:
the scope-admission test drops the call instead of producing an external
leaf. -/
theorem out_of_scope_external_leaf_counterexample :
    resolveCall projOut cfgW fileOutA { expr := CallExpr.ident "g" }
      = some (some { name := "g", target := some gOutDef, isExternal := true })
    ∧ isInScope cfgW gOutDef.filePath = false
    ∧ mainDefOut.body = [{ expr := CallExpr.ident "g" }]
    ∧ trace projOut cfgW 5 "/s/a.ts" "main"
      = some (CallTrace.mk (mkInfo "main" "/s/a.ts" 1 false false false "main") []) :=
  ⟨rfl, rfl, rfl, rfl⟩

/-- C3 amended: a call whose resolution is external (no target, or a
target outside the scope root) never produces an expanded child: when the
scope-admission test fails the call is dropped silently — no node, the
common case for out-of-scope resolutions reached through imports — and
when the admission test passes the call contributes exactly one external
leaf with zero children. -/
theorem out_of_scope_call_amended :
    ∀ p cfg recur file cs rest depth path stack ci cts st2,
      resolveCall p cfg file cs = some (some ci) →
      ci.isExternal = true →
      traceChildrenG p cfg recur file (cs :: rest) depth path stack
        = some (cts, st2) →
      ∃ cts2, traceChildrenG p cfg recur file rest depth path stack
          = some (cts2, st2)
        ∧ (cts = cts2
          ∨ ∃ e, cts = e :: cts2 ∧ e.isExternal = true ∧ e.children = []) := by
  intro p cfg recur file cs rest depth path stack ci cts st2 hres hext h
  simp only [traceChildrenG, hres] at h
  cases hws : isWithinScope p cfg file cs ci.name with
  | none => rw [hws] at h; exact absurd h (by simp)
  | some b =>
    rw [hws] at h
    cases b
    · exact ⟨cts, h, Or.inl rfl⟩
    · simp only [traceCallG, hext, Bool.true_or, if_true] at h
      cases hrest : traceChildrenG p cfg recur file rest depth path stack with
      | none => rw [hrest] at h; exact absurd h (by simp)
      | some v =>
        obtain ⟨cts1, st3⟩ := v
        rw [hrest] at h
        simp only [Option.some.injEq, Prod.mk.injEq] at h
        refine ⟨cts1, ?_, Or.inr ⟨_, h.1.symm, rfl, rfl⟩⟩
        rw [h.2]

def ciSelf : CallInfo := { name := "g", target := none, isExternal := true }

theorem out_of_scope_call_amended_witness :
    ∃ cts2, traceChildrenG projSkipSelf cfgW (traceFunctionG projSkipSelf cfgW 3)
        fileSkipSelf [] 1 ["f"] ["f"] = some (cts2, ["f"])
      ∧ ([CallTrace.mk (mkInfo "g" "external" 0 false true false "f → g") []] = cts2
        ∨ ∃ e, [CallTrace.mk (mkInfo "g" "external" 0 false true false "f → g") []]
            = e :: cts2 ∧ e.isExternal = true ∧ e.children = []) :=
  out_of_scope_call_amended projSkipSelf cfgW (traceFunctionG projSkipSelf cfgW 3)
    fileSkipSelf { expr := CallExpr.ident "g" } [] 1 ["f"] ["f"] ciSelf
    [CallTrace.mk (mkInfo "g" "external" 0 false true false "f → g") []] ["f"]
    rfl rfl rfl

-- ===== Skip-file lookup =====

/-- C5 counterexample: `h` is defined in the skip-marked `/s/skip.ts` and
the lookup indeed treats it as unresolved, but the cross-file call from
`/s/a.ts` does not appear in the tree as an external node — it is dropped
entirely by the scope-admission test. -/
theorem skip_file_external_counterexample :
    findFunctionDefinitionF projSkipCall 4 fileSkipped "h" = some none
    ∧ fileSkipped.getFunction "h" = some hSkipDef
    ∧ mainDefSkip.body = [{ expr := CallExpr.ident "h" }]
    ∧ trace projSkipCall cfgW 5 "/s/a.ts" "main"
      = some (CallTrace.mk (mkInfo "main" "/s/a.ts" 1 false false false "main") []) :=
  ⟨rfl, rfl, rfl, rfl⟩

/-- C5 amended: every name sought in a file carrying the skip-file marker
is treated as unresolved by both lookups, whether or not it is defined
there; but the resulting call renders as an external node only when the
scope-admission test independently passes — as for a call inside the
skip-marked file to a locally declared function — while a call reaching
the skipped file only through an import is omitted from the tree
entirely. -/
theorem skip_file_lookup_amended :
    (∀ p fuel file name, shouldSkipFile file = true →
      findFunctionDefinitionF p (fuel + 1) file name = some none)
    ∧ (∀ p fuel file className methodName, shouldSkipFile file = true →
      findMethodDefinitionF p (fuel + 1) file className methodName = some none)
    ∧ trace projSkipSelf cfgW 5 "/s/skip.ts" "f" = some treeSkipSelf
    ∧ trace projSkipCall cfgW 5 "/s/a.ts" "main"
      = some (CallTrace.mk (mkInfo "main" "/s/a.ts" 1 false false false "main") []) := by
  refine ⟨?_, ?_, rfl, rfl⟩
  · intro p fuel file name h
    simp [findFunctionDefinitionF, h]
  · intro p fuel file className methodName h
    simp [findMethodDefinitionF, h]

theorem skip_file_lookup_amended_witness :
    findFunctionDefinitionF projSkipCall 4 fileSkipped "nothere" = some none
    ∧ findMethodDefinitionF projSkipCall 4 fileSkipped "C" "m" = some none :=
  ⟨skip_file_lookup_amended.1 projSkipCall 3 fileSkipped "nothere" rfl,
   skip_file_lookup_amended.2.1 projSkipCall 3 fileSkipped "C" "m" rfl⟩

-- ===== Unbounded import chasing =====

theorem cycAux : ∀ n,
    findFunctionDefinitionF projCyc n fileCycA "f" = none
    ∧ findFunctionDefinitionF projCyc n fileCycB "f" = none
    ∧ findMethodDefinitionF projCyc n fileCycA "C" "m" = none
    ∧ findMethodDefinitionF projCyc n fileCycB "C" "m" = none := by
  intro n
  induction n with
  | zero => exact ⟨rfl, rfl, rfl, rfl⟩
  | succ n ih =>
    refine ⟨?_, ?_, ?_, ?_⟩
    · have hstep : findFunctionDefinitionF projCyc (n + 1) fileCycA "f"
          = findFunctionDefinitionF projCyc n fileCycB "f" := rfl
      rw [hstep]
      exact ih.2.1
    · have hstep : findFunctionDefinitionF projCyc (n + 1) fileCycB "f"
          = findFunctionDefinitionF projCyc n fileCycA "f" := rfl
      rw [hstep]
      exact ih.1
    · have hstep : findMethodDefinitionF projCyc (n + 1) fileCycA "C" "m"
          = findMethodDefinitionF projCyc n fileCycB "C" "m" := rfl
      rw [hstep]
      exact ih.2.2.2
    · have hstep : findMethodDefinitionF projCyc (n + 1) fileCycB "C" "m"
          = findMethodDefinitionF projCyc n fileCycA "C" "m" := rfl
      rw [hstep]
      exact ih.2.2.1

/-- Resolution terminates on an input when some finite fuel suffices for
the fuelled model to return. -/
def ResolutionTerminates (p : Project) (f : SourceFile) (name : String) : Prop :=
  ∃ fuel, findFunctionDefinitionF p fuel f name ≠ none

def MethodResolutionTerminates (p : Project) (f : SourceFile)
    (className methodName : String) : Prop :=
  ∃ fuel, findMethodDefinitionF p fuel f className methodName ≠ none

/-- C6 counterexample: on the cyclic re-export project, neither
findFunctionDefinition nor findMethodDefinition terminates — no finite
fuel lets the fuelled model return, because each step revisits the other
file with no progress. -/
theorem import_cycle_terminates_counterexample :
    ¬ ResolutionTerminates projCyc fileCycA "f"
    ∧ ¬ MethodResolutionTerminates projCyc fileCycA "C" "m" := by
  constructor
  · rintro ⟨fuel, hf⟩
    exact hf (cycAux fuel).1
  · rintro ⟨fuel, hf⟩
    exact hf (cycAux fuel).2.2.1

/-- C6 amended: import-following is not bounded.  On a cyclic re-export
(module A importing `f` and `C` from B and B importing them back from A),
findFunctionDefinition and findMethodDefinition revisit the same file
without progress indefinitely: the fuelled model exhausts every finite
fuel without returning. -/
theorem import_cycle_diverges :
    (∀ fuel, findFunctionDefinitionF projCyc fuel fileCycA "f" = none)
    ∧ (∀ fuel, findMethodDefinitionF projCyc fuel fileCycA "C" "m" = none) :=
  ⟨fun fuel => (cycAux fuel).1, fun fuel => (cycAux fuel).2.2.1⟩

-- ===== External-call locations and their rendering =====

/-- A located external call, for exercising the formatter. -/
def treeLoc : CallTrace :=
  CallTrace.mk (mkInfo "root" "/s/a.ts" 1 false false false "root")
    [CallTrace.mk (mkInfo "gg" "/x/b.ts" 3 false true false "root → gg") []]

/-- C8 counterexample: the unlocatable external call `g` is recorded with
the sentinel location file `external`, line 0 — but because line 0 is
falsy, the formatter omits the parenthesized location from its header
entirely: the report for `projSkipSelf` contains no `(external:0)`. -/
theorem external_location_render_counterexample :
    traceCallG cfgW (traceFunctionG projSkipSelf cfgW 3)
        { name := "g", target := none, isExternal := true } 1 ["f"] ["f"]
      = some (some (CallTrace.mk (mkInfo "g" "external" 0 false true false "f → g") []),
          ["f"])
    ∧ trace projSkipSelf cfgW 5 "/s/skip.ts" "f" = some treeSkipSelf
    ∧ strContains (formatReport "" false 3 treeSkipSelf) "(external:0)" = false :=
  ⟨rfl, rfl, by decide⟩

/-- C8 amended: an external call whose target could not be located is
given the sentinel location file `external`, line 0, and one whose target
is determinable records the target's file and line; but the formatter
prints a parenthesized location only when both the file name and the line
number are truthy, so the sentinel line 0 suppresses it — the header of
an unlocated external call carries no `(external:0)`, while a located
external call renders its actual `(file:line)`. -/
theorem external_location_amended :
    (∀ cfg recur ci depth path stack, ci.target = none →
      ∃ e, traceCallG cfg recur ci depth path stack = some (some e, stack)
        ∧ e.fileName = "external" ∧ e.lineNumber = 0
        ∧ e.isExternal = true ∧ e.children = [])
    ∧ (∀ cfg recur ci dtgt depth path stack,
      ci.target = some dtgt → ci.isExternal = true →
      ∃ e, traceCallG cfg recur ci depth path stack = some (some e, stack)
        ∧ e.fileName = dtgt.filePath ∧ e.lineNumber = dtgt.line
        ∧ e.isExternal = true ∧ e.children = [])
    ∧ strContains (formatReport "" false 3 treeSkipSelf) "(external:0)" = false
    ∧ strContains (formatReport "" false 3 treeLoc) "(/x/b.ts:3)" = true := by
  refine ⟨?_, ?_, by decide, by decide⟩
  · intro cfg recur ci depth path stack htgt
    refine ⟨CallTrace.mk
      { name := ci.name, isRecursive := false, isExternal := true,
        functionPath := joinArrow (path ++ [ci.name]), fileName := "external",
        lineNumber := 0, isSkipped := false, jsDocDescription := none,
        jsDocRemarks := none } [], ?_, rfl, rfl, rfl, rfl⟩
    unfold traceCallG
    rw [htgt]
    simp
  · intro cfg recur ci dtgt depth path stack htgt hext
    refine ⟨CallTrace.mk
      { name := ci.name, isRecursive := false, isExternal := true,
        functionPath := joinArrow (path ++ [ci.name]), fileName := dtgt.filePath,
        lineNumber := dtgt.line, isSkipped := false, jsDocDescription := none,
        jsDocRemarks := none } [], ?_, rfl, rfl, rfl, rfl⟩
    unfold traceCallG
    rw [htgt, hext]
    simp

theorem external_location_amended_witness :
    (∃ e, traceCallG cfgW (traceFunctionG projSkipSelf cfgW 3)
        { name := "g", target := none, isExternal := true } 1 ["f"] ["f"]
        = some (some e, ["f"])
      ∧ e.fileName = "external" ∧ e.lineNumber = 0
      ∧ e.isExternal = true ∧ e.children = [])
    ∧ (∃ e, traceCallG cfgW (traceFunctionG projOut cfgW 3)
        { name := "g", target := some gOutDef, isExternal := true } 1 ["main"] ["main"]
        = some (some e, ["main"])
      ∧ e.fileName = gOutDef.filePath ∧ e.lineNumber = gOutDef.line
      ∧ e.isExternal = true ∧ e.children = []) :=
  ⟨external_location_amended.1 cfgW (traceFunctionG projSkipSelf cfgW 3)
      { name := "g", target := none, isExternal := true } 1 ["f"] ["f"] rfl,
   external_location_amended.2.1 cfgW (traceFunctionG projOut cfgW 3)
      { name := "g", target := some gOutDef, isExternal := true } gOutDef
      1 ["main"] ["main"] rfl rfl⟩

-- ===== Numbering =====

theorem jsEndsWith_dot_dropLast {s : String} (h : jsEndsWith s "." = true) :
    jsDropLast s ++ "." = s := by
  unfold jsEndsWith at h
  have hsuf : ("." : String).data <:+ s.data := List.isSuffixOf_iff_suffix.mp h
  obtain ⟨t, ht⟩ := hsuf
  have hdata : s.data = t ++ ['.'] := ht.symm
  have hs : s = String.mk (t ++ ['.']) := by
    calc s = String.mk s.data := rfl
    _ = String.mk (t ++ ['.']) := by rw [hdata]
  rw [hs]
  show String.mk ((t ++ ['.']).dropLast) ++ "." = String.mk (t ++ ['.'])
  rw [List.dropLast_concat]
  rfl

/-- Modelled from the spec's wording: a sibling label is the decimal
index, left-padded with zeros to the decimal width of the sibling
count. -/
def specZeroPad (totalSiblings childIndex : Nat) : String :=
  String.mk (List.replicate ((toString totalSiblings).data.length
    - (toString childIndex).data.length) '0' ++ (toString childIndex).data)

/-- C9: each node's label extends its parent's label by a dot and its own
1-based sibling index, zero-padded to the decimal width of the sibling
count: at the root the label is the padded index and a dot; a parent
label ending in a dot (a root-level label) is extended by the padded
index directly, and any other parent label by a dot and the padded index;
10 siblings render as 01..10 and 3 siblings as 1, 2, 3. -/
theorem numbering_zero_padded :
    (∀ i n, getChildPrefix "" i n = specZeroPad n i ++ ".")
    ∧ (∀ pfx i n, pfx ≠ "" → jsEndsWith pfx "." = true →
        getChildPrefix pfx i n = pfx ++ specZeroPad n i
        ∧ getChildPrefix pfx i n = jsDropLast pfx ++ "." ++ specZeroPad n i)
    ∧ (∀ pfx i n, pfx ≠ "" → jsEndsWith pfx "." = false →
        getChildPrefix pfx i n = pfx ++ "." ++ specZeroPad n i)
    ∧ ((List.range 10).map (fun i => getChildPrefix "" (i + 1) 10)
        = ["01.", "02.", "03.", "04.", "05.", "06.", "07.", "08.", "09.", "10."])
    ∧ ((List.range 3).map (fun i => getChildPrefix "" (i + 1) 3)
        = ["1.", "2.", "3."])
    ∧ ((List.range 3).map (fun i => getChildPrefix "2." (i + 1) 3)
        = ["2.1", "2.2", "2.3"])
    ∧ ((List.range 3).map (fun i => getChildPrefix "2.1" (i + 1) 3)
        = ["2.1.1", "2.1.2", "2.1.3"]) := by
  refine ⟨fun i n => rfl, ?_, ?_, by decide, by decide, by decide, by decide⟩
  · intro pfx i n hne hdot
    have hbeq : (pfx == "") = false := beq_eq_false_iff_ne.mpr hne
    constructor
    · show getChildPrefix pfx i n = pfx ++ specZeroPad n i
      unfold getChildPrefix
      rw [hbeq]
      simp only [Bool.false_eq_true, if_false, hdot, if_true]
      conv_rhs => rw [← jsEndsWith_dot_dropLast hdot]
      rfl
    · unfold getChildPrefix
      rw [hbeq]
      simp only [Bool.false_eq_true, if_false, hdot, if_true]
      rfl
  · intro pfx i n hne hdot
    have hbeq : (pfx == "") = false := beq_eq_false_iff_ne.mpr hne
    unfold getChildPrefix
    rw [hbeq]
    simp only [Bool.false_eq_true, if_false, hdot]
    rfl

theorem numbering_zero_padded_witness :
    ( getChildPrefix "2." 2 3 = "2." ++ specZeroPad 3 2
      ∧ getChildPrefix "2." 2 3 = jsDropLast "2." ++ "." ++ specZeroPad 3 2)
    ∧ getChildPrefix "2.1" 3 3 = "2.1" ++ "." ++ specZeroPad 3 3 :=
  ⟨numbering_zero_padded.2.1 "2." 2 3 (by decide) rfl,
   numbering_zero_padded.2.2.1 "2.1" 3 3 (by decide) rfl⟩

-- ===== maxDepth = 0 =====

/-- C10: passing maxDepth = 0 behaves exactly like omitting the option —
the constructor's `options.maxDepth || 10` makes the effective limit 10,
so the entry node is still expanded rather than the tree being a single
unexpanded root. -/
theorem max_depth_zero_default :
    (∀ sc ol fuel,
      mkConfig { scopeDirectory := sc, maxDepth := some 0, oneline := ol } fuel
        = mkConfig { scopeDirectory := sc, maxDepth := none, oneline := ol } fuel)
    ∧ (mkConfig { scopeDirectory := "/s", maxDepth := some 0, oneline := true } 5).maxDepth
        = 10
    ∧ trace projW (mkConfig { scopeDirectory := "/s", maxDepth := some 0, oneline := true } 5)
        5 "/s/a.ts" "main" = some treeW :=
  ⟨fun sc ol fuel => rfl, rfl, rfl⟩
